import Mathlib

/-!
Verification of the amoeba-division simulation (src/amoeba_model.py) against
its natural-language specification.

The Python source is shallowly embedded: classes become structures, methods
become pure functions, and every random draw of the program (numpy randint
values, the scheduler's shuffle order, random.choice of an empty neighbor
cell) is passed in explicitly as a parameter, constrained by a validity
predicate that states exactly the range the corresponding library call draws
from.  Components of the mesa / numpy libraries that the source calls but
that are not under src/ (SingleGrid, RandomActivation, Model.next_id,
np.random.randint) are modelled from the spec, as marked in the relevant
doc comments.
-/

/-- Grid coordinate: integer pair (x, y), 0-indexed (spec section 3). -/
abbrev Pos : Type := Nat × Nat

/-- Embedding of class `Environment` (src/amoeba_model.py lines 83-172).
Months are Python ints; the simulation never guards them, so they are
embedded as `Int`. -/
structure Environment where
  month : Int
  water_quality : Int
  temperature : Int
  temperature_description : String
  deriving Repr, DecidableEq

/-- The temperature description assigned by `Environment.adjust_temperature`
(lines 124-139): a deterministic function of the month's season. -/
def seasonDescription (month : Int) : String :=
  if month = 12 ∨ month = 1 ∨ month = 2 then "sub-zero"
  else if month = 6 ∨ month = 7 ∨ month = 8 then "extreme hot"
  else "normal"

/-- Lower bound of the water-quality range drawn by `adjust_water_quality`
(lines 110-122); `np.random.randint(lo, hi)` draws from `[lo, hi)`. -/
def wqLo (month : Int) : Int :=
  if month = 12 ∨ month = 1 ∨ month = 2 then 0
  else if month = 6 ∨ month = 7 ∨ month = 8 then 50
  else 75

/-- Upper (exclusive) bound of the water-quality range drawn by
`adjust_water_quality` (lines 110-122). -/
def wqHi (month : Int) : Int :=
  if month = 12 ∨ month = 1 ∨ month = 2 then 50 else 100

/-- Lower bound of the temperature range drawn by `adjust_temperature`
(lines 124-139). -/
def tempLo (month : Int) : Int :=
  if month = 12 ∨ month = 1 ∨ month = 2 then -20
  else if month = 6 ∨ month = 7 ∨ month = 8 then 30
  else 15

/-- Upper (exclusive) bound of the temperature range drawn by
`adjust_temperature` (lines 124-139). -/
def tempHi (month : Int) : Int :=
  if month = 12 ∨ month = 1 ∨ month = 2 then 10
  else if month = 6 ∨ month = 7 ∨ month = 8 then 60
  else 25

/-- Validity of one pair of environment draws: `wq` and `temp` are possible
outputs of the two `np.random.randint` calls made by `update_conditions`
for the given month. -/
def ValidDraws (month wq temp : Int) : Prop :=
  wqLo month ≤ wq ∧ wq < wqHi month ∧ tempLo month ≤ temp ∧ temp < tempHi month

instance (month wq temp : Int) : Decidable (ValidDraws month wq temp) := by
  unfold ValidDraws; infer_instance

/-- Embedding of `Environment.update_conditions` (lines 103-108), which calls
`adjust_water_quality` and `adjust_temperature`: the two random draws are
passed in as `wq` and `temp` (constrained by `ValidDraws` wherever the
embedding quantifies over runs), and the temperature description is the
deterministic function of the current month. -/
def update_conditions (env : Environment) (wq temp : Int) : Environment :=
  { env with
    water_quality := wq
    temperature := temp
    temperature_description := seasonDescription env.month }

/-- Embedding of `Environment.__init__` (lines 93-101): store the month, then
run `update_conditions` with the initial draws. -/
def envInit (month wq temp : Int) : Environment :=
  update_conditions { month := month, water_quality := 0, temperature := 0,
                      temperature_description := "" } wq temp

/-- Embedding of `Environment.is_encystment_condition` (lines 141-148). -/
def is_encystment_condition (env : Environment) : Bool :=
  decide (env.water_quality < 50) ||
    (decide (env.temperature_description = "sub-zero") ||
     decide (env.temperature_description = "extreme hot"))

/-- Embedding of `Environment.is_excystment_condition` (lines 150-157). -/
def is_excystment_condition (env : Environment) : Bool :=
  decide (50 ≤ env.water_quality) && decide (env.temperature_description = "normal")

/-- Embedding of `Environment.is_div_condition` (lines 159-166). -/
def is_div_condition (env : Environment) : Bool :=
  decide (50 ≤ env.water_quality) && decide (env.temperature_description = "normal")

/-- Successor of a month, as computed by `Environment.increment_month`
(lines 168-172): `1 if month == 12 else month + 1`. -/
def monthSucc (m : Int) : Int := if m = 12 then 1 else m + 1

/-- Embedding of `Environment.increment_month` (lines 168-172). -/
def increment_month (env : Environment) : Environment :=
  { env with month := monthSucc env.month }

theorem increment_month_iterate_month (n : Nat) (env : Environment) :
    (increment_month^[n] env).month = monthSucc^[n] env.month := by
  induction n generalizing env with
  | zero => rfl
  | succ k ih =>
      rw [Function.iterate_succ_apply, Function.iterate_succ_apply, ih]
      rfl

/-- C9: Month cyclicity.  For every environment whose month lies in 1..12,
applying `increment_month` twelve times returns the month to its starting
value, and a single application keeps the month inside 1..12. -/
theorem month_cyclicity (env : Environment)
    (h1 : 1 ≤ env.month) (h2 : env.month ≤ 12) :
    (increment_month^[12] env).month = env.month ∧
      1 ≤ (increment_month env).month ∧ (increment_month env).month ≤ 12 := by
  obtain ⟨m, wq, t, d⟩ := env
  simp only [increment_month_iterate_month, increment_month]
  simp only at h1 h2
  refine ⟨?_, ?_, ?_⟩ <;> interval_cases m <;> decide

/-- Witness for C9, at a concrete spring environment. -/
theorem month_cyclicity_witness :
    (increment_month^[12] ⟨4, 80, 20, "normal"⟩).month = (4 : Int) ∧
      1 ≤ (increment_month ⟨4, 80, 20, "normal"⟩).month ∧
      (increment_month ⟨4, 80, 20, "normal"⟩).month ≤ 12 :=
  month_cyclicity ⟨4, 80, 20, "normal"⟩ (by decide) (by decide)

/-- C10: On every environment produced by `update_conditions`, the
temperature description is exactly one of the three strings "sub-zero",
"extreme hot", "normal"; the excystment predicate and the division predicate
agree; and the encystment predicate is the boolean negation of the division
predicate, so on every activation exactly one of the encystment branch and
the division-condition gate applies. -/
theorem condition_predicate_relations (env : Environment) (wq temp : Int)
    (_hv : ValidDraws env.month wq temp) :
    ((update_conditions env wq temp).temperature_description = "sub-zero" ∨
      (update_conditions env wq temp).temperature_description = "extreme hot" ∨
      (update_conditions env wq temp).temperature_description = "normal") ∧
    is_excystment_condition (update_conditions env wq temp) =
      is_div_condition (update_conditions env wq temp) ∧
    is_encystment_condition (update_conditions env wq temp) =
      !is_div_condition (update_conditions env wq temp) := by
  unfold update_conditions is_encystment_condition is_excystment_condition
    is_div_condition seasonDescription
  by_cases hw : env.month = 12 ∨ env.month = 1 ∨ env.month = 2
  · simp [hw]
  · by_cases hs : env.month = 6 ∨ env.month = 7 ∨ env.month = 8
    · simp [hw, hs]
    · simp only [hw, hs, if_false]
      refine ⟨Or.inr (Or.inr trivial), trivial, ?_⟩
      simp only [String.reduceEq, decide_False, Bool.or_false, Bool.and_true,
        decide_True, Bool.true_and, ← decide_not]
      rw [decide_eq_decide]
      omega

/-- Witness for C10, at a concrete spring environment with draws that
`np.random.randint` can actually produce for month 4. -/
theorem condition_predicate_relations_witness :
    ValidDraws (4 : Int) 80 20 ∧
    (((update_conditions ⟨4, 0, 0, ""⟩ 80 20).temperature_description = "sub-zero" ∨
      (update_conditions ⟨4, 0, 0, ""⟩ 80 20).temperature_description = "extreme hot" ∨
      (update_conditions ⟨4, 0, 0, ""⟩ 80 20).temperature_description = "normal") ∧
    is_excystment_condition (update_conditions ⟨4, 0, 0, ""⟩ 80 20) =
      is_div_condition (update_conditions ⟨4, 0, 0, ""⟩ 80 20) ∧
    is_encystment_condition (update_conditions ⟨4, 0, 0, ""⟩ 80 20) =
      !is_div_condition (update_conditions ⟨4, 0, 0, ""⟩ 80 20)) :=
  ⟨by decide, condition_predicate_relations ⟨4, 0, 0, ""⟩ 80 20 (by decide)⟩

/-- Embedding of class `Amoeba` (src/amoeba_model.py lines 20-80).  The
source keeps the two-phase division data as ad-hoc instance attributes
`self.new_position` (the recorded target cell) and `self.new_amoeba`
(the pre-created, not yet placed child object); here the target cell and the
child's identifier are plain fields, read only while `dividing_next_step`
is set, with inert default values otherwise. -/
structure Amoeba where
  unique_id : Nat
  state : String
  dividing_next_step : Bool
  pos : Pos
  new_position : Pos
  new_amoeba_id : Nat
  deriving Repr, DecidableEq

/-- The six organism state strings assigned anywhere in the source. -/
def stateNames : List String :=
  ["intact", "dividing", "divided", "encysted", "excysted", "stressed"]

/-- Modelled from the spec (section 4.1) and mesa's `SingleGrid`, which is
not under src/: the grid's occupancy table, a finite map from coordinate to
the occupying organism's identifier, looked up by first match. -/
def gridGet (cells : List (Pos × Nat)) (p : Pos) : Option Nat :=
  (cells.find? (fun pc => decide (pc.1 = p))).map (fun pc => pc.2)

/-- Embedding of `grid.is_cell_empty` (mesa `SingleGrid`, modelled from the
spec section 4.1): a cell is empty when the occupancy table has no entry
for it. -/
def cellEmpty (cells : List (Pos × Nat)) (p : Pos) : Bool :=
  (gridGet cells p).isNone

/-- Toroidal wrap of one coordinate (spec sections 3 and 4.1: coordinates
wrap modulo width/height). -/
def torus (n : Nat) (x : Int) : Nat := (x % (n : Int)).toNat

/-- Modelled from the spec (section 4.1) and mesa's
`grid.get_neighborhood(pos, moore=True, include_center=False)`, which is not
under src/: the 8 Moore offsets under toroidal wrap, deduplicated into a
true set of coordinates (the spec mandates deduplication). -/
def get_neighborhood (w h : Nat) (p : Pos) : List Pos :=
  (([(-1, -1), (-1, 0), (-1, 1), (0, -1), (0, 1), (1, -1), (1, 0), (1, 1)] :
      List (Int × Int)).map
    (fun d => (torus w ((p.1 : Int) + d.1), torus h ((p.2 : Int) + d.2)))).dedup

/-- Embedding of `AmoebaDivisionModel` (lines 200-241): the simulation state.
`agents` is the scheduler's registry in insertion order (mesa
`RandomActivation._agents`, modelled from the spec section 4.4), `cells` the
grid occupancy table, `current_id` the id allocator's counter, `steps` the
scheduler's tick counter and `data_collector` the metrics log. -/
structure AmoebaDivisionModel where
  width : Nat
  height : Nat
  env : Environment
  agents : List Amoeba
  cells : List (Pos × Nat)
  current_id : Nat
  steps : Nat
  data_collector : List (List (String × Int))
  deriving Repr, DecidableEq

/-- Replace every registered agent carrying the given identifier (in every
reachable state exactly one) with the updated record, keeping the registry
order; this is how an activation's mutations of `self` and the registration
map are reflected in the registry. -/
def setAgent (l : List Amoeba) (aid : Nat) (newA : Amoeba) : List Amoeba :=
  l.map (fun b => if b.unique_id = aid then newA else b)

/-- Look up a registered agent by identifier (first match). -/
def findAgent (l : List Amoeba) (aid : Nat) : Option Amoeba :=
  l.find? (fun b => decide (b.unique_id = aid))

/-- The state written by lines 45-48 of `Amoeba.step` before the division
gate: encystment first, then excystment of an encysted organism, otherwise
the prior state. -/
def stepState (env : Environment) (a : Amoeba) : String :=
  if is_encystment_condition env then "encysted"
  else if is_excystment_condition env && decide (a.state = "encysted") then "excysted"
  else a.state

/-- Embedding of `Amoeba.divide_if_possible` (lines 54-80), acting on the
model with `a1` the activated agent after lines 45-48.  The random
`self.random.choice(empty_positions)` is embedded as indexing by
`choice % length`, which ranges over exactly the choices the source can
make.  The child identifier is modelled from the spec (section 4.3: "a
freshly allocated (but not yet placed) child identifier"): mesa's
`Model.next_id` allocator is not under src/, and is modelled as the counter
`current_id`, incremented at each allocation. -/
def divide_if_possible (m : AmoebaDivisionModel) (a1 : Amoeba) (choice : Nat) :
    AmoebaDivisionModel :=
  if a1.dividing_next_step then
    if cellEmpty m.cells a1.new_position then
      let child : Amoeba :=
        { unique_id := a1.new_amoeba_id, state := "intact",
          dividing_next_step := false, pos := a1.new_position,
          new_position := (0, 0), new_amoeba_id := 0 }
      { m with
        agents := setAgent m.agents a1.unique_id
            { a1 with state := "divided", dividing_next_step := false } ++ [child]
        cells := m.cells ++ [(a1.new_position, a1.new_amoeba_id)] }
    else
      { m with
        agents := setAgent m.agents a1.unique_id
            { a1 with state := "stressed", dividing_next_step := false } }
  else if is_div_condition m.env then
    let empty_positions :=
      (get_neighborhood m.width m.height a1.pos).filter (fun p => cellEmpty m.cells p)
    if empty_positions.isEmpty then
      { m with agents := setAgent m.agents a1.unique_id { a1 with state := "stressed" } }
    else
      let np := empty_positions.getD (choice % empty_positions.length) (0, 0)
      { m with
        agents := setAgent m.agents a1.unique_id
            { a1 with
              state := "dividing"
              dividing_next_step := true
              new_position := np
              new_amoeba_id := m.current_id + 1 }
        current_id := m.current_id + 1 }
  else
    { m with agents := setAgent m.agents a1.unique_id a1 }

/-- Embedding of `Amoeba.step` (lines 40-52): one activation of the agent
with identifier `aid`.  An identifier no longer mapping to an agent is
skipped, as in mesa's `agent_buffer`. -/
def agentStep (m : AmoebaDivisionModel) (aid : Nat) (choice : Nat) :
    AmoebaDivisionModel :=
  match findAgent m.agents aid with
  | none => m
  | some a =>
    let a1 := { a with state := stepState m.env a }
    if decide (a1.state = "excysted") || is_div_condition m.env || a1.dividing_next_step
    then divide_if_possible m a1 choice
    else { m with agents := setAgent m.agents a1.unique_id a1 }

/-- Identifiers of the registered agents, in registry order. -/
def agentIds (l : List Amoeba) : List Nat := l.map (fun a => a.unique_id)

/-- Modelled from the spec (section 4.4) and mesa's
`RandomActivation.step`, which is not under src/: activate each identifier
of the snapshot `ord` once, in that order.  `ord` is quantified over all
permutations of the registry snapshot taken at tick start, so agents
registered during the pass are absent from it. -/
def activateAll (m : AmoebaDivisionModel) (ord : List Nat) (choice : Nat → Nat) :
    AmoebaDivisionModel :=
  ord.foldl (fun acc aid => agentStep acc aid (choice aid)) m

/-- The scheduler's full tick, `self.schedule.step()`: the activation pass,
then the step counter increments. -/
def scheduleStep (m : AmoebaDivisionModel) (ord : List Nat) (choice : Nat → Nat) :
    AmoebaDivisionModel :=
  let m1 := activateAll m ord choice
  { m1 with steps := m1.steps + 1 }

/-- Count of registered agents in a given state, as computed by each
`sum(1 for a in model.schedule.agents if a.state == s)` of `collect_data`
(lines 175-197). -/
def countState (l : List Amoeba) (s : String) : Nat :=
  (l.filter (fun a => decide (a.state = s))).length

/-- Embedding of `collect_data` (lines 175-197): the per-tick metrics
record, as an ordered field list mirroring the source's dict. -/
def collect_data (m : AmoebaDivisionModel) : List (String × Int) :=
  [("step", (m.steps : Int)),
   ("intact", (countState m.agents "intact" : Int)),
   ("dividing", (countState m.agents "dividing" : Int)),
   ("divided", (countState m.agents "divided" : Int)),
   ("encysted", (countState m.agents "encysted" : Int)),
   ("excysted", (countState m.agents "excysted" : Int)),
   ("stressed", (countState m.agents "stressed" : Int)),
   ("water_quality", m.env.water_quality),
   ("temperature", m.env.temperature),
   ("month", m.env.month)]

/-- Embedding of `AmoebaDivisionModel.step` (lines 231-241): the scheduler
pass, then `environment.update_conditions()` (drawing `wq`, `temp` for the
current month), then `environment.increment_month()`, then the metrics
record is appended.  This order is taken verbatim from the source. -/
def modelStep (m : AmoebaDivisionModel) (ord : List Nat) (choice : Nat → Nat)
    (wq temp : Int) : AmoebaDivisionModel :=
  let m1 := scheduleStep m ord choice
  let m2 := { m1 with env := increment_month (update_conditions m1.env wq temp) }
  { m2 with data_collector := m2.data_collector ++ [collect_data m2] }

/-- Embedding of `AmoebaDivisionModel.__init__` (lines 210-229).  The seed
position draws `sx = np.random.randint(1, width)` and
`sy = np.random.randint(1, height)` are passed in; numpy's `randint(1, n)`
raises `ValueError` when `n ≤ 1`, so construction yields no model in that
case, and otherwise the draws satisfy `1 ≤ sx < width`, `1 ≤ sy < height`
(tracked by `SeedDraw`).  No validation of the month is performed
anywhere in the constructor. -/
def modelInit (width height : Nat) (month wq0 temp0 : Int) (sx sy : Nat) :
    Option AmoebaDivisionModel :=
  if 1 < width ∧ 1 < height then
    some
      { width := width, height := height
        env := envInit month wq0 temp0
        agents := [{ unique_id := 1, state := "intact", dividing_next_step := false,
                     pos := (sx, sy), new_position := (0, 0), new_amoeba_id := 0 }]
        cells := [((sx, sy), 1)]
        current_id := 1, steps := 0, data_collector := [] }
  else none

/-- Validity of the seed-position draws: exactly the values
`np.random.randint(1, width)` and `np.random.randint(1, height)` can
produce. -/
def SeedDraw (width height sx sy : Nat) : Prop :=
  1 ≤ sx ∧ sx < width ∧ 1 ≤ sy ∧ sy < height

instance (width height sx sy : Nat) : Decidable (SeedDraw width height sx sy) := by
  unfold SeedDraw; infer_instance

/-- The reachable simulation states: a successful construction with valid
random draws, followed by any number of ticks, each with a scheduler order
that is a permutation of the tick-start registry snapshot, an arbitrary
neighbor-choice function, and environment draws from the current month's
ranges. -/
inductive Reachable : AmoebaDivisionModel → Prop
  | init (width height : Nat) (month wq0 temp0 : Int) (sx sy : Nat)
      (m : AmoebaDivisionModel)
      (hdraw : ValidDraws month wq0 temp0)
      (hseed : SeedDraw width height sx sy)
      (hinit : modelInit width height month wq0 temp0 sx sy = some m) :
      Reachable m
  | step (m : AmoebaDivisionModel) (ord : List Nat) (choice : Nat → Nat)
      (wq temp : Int)
      (hm : Reachable m)
      (hord : ord.Perm (agentIds m.agents))
      (hdraw : ValidDraws m.env.month wq temp) :
      Reachable (modelStep m ord choice wq temp)

theorem agentStep_env (m : AmoebaDivisionModel) (aid choice : Nat) :
    (agentStep m aid choice).env = m.env := by
  unfold agentStep divide_if_possible
  dsimp only
  repeat' split
  all_goals rfl

theorem activateAll_env (ord : List Nat) (m : AmoebaDivisionModel)
    (choice : Nat → Nat) : (activateAll m ord choice).env = m.env := by
  induction ord generalizing m with
  | nil => rfl
  | cons a t ih =>
      show (activateAll (agentStep m a (choice a)) t choice).env = m.env
      rw [ih, agentStep_env]

theorem modelStep_env (m : AmoebaDivisionModel) (ord : List Nat)
    (choice : Nat → Nat) (wq temp : Int) :
    (modelStep m ord choice wq temp).env =
      increment_month (update_conditions m.env wq temp) := by
  unfold modelStep scheduleStep
  simp only [activateAll_env]

/-- C6, amended: each tick first redraws water quality and temperature from
the ranges of the current (pre-increment) month and recomputes the
temperature description from that month's season, and only then increments
the month (12 wraps to 1); consequently after every tick the stored values
lie in the ranges of the month preceding the stored month, not of the stored
month itself. -/
theorem env_advance_order_amended (m : AmoebaDivisionModel) (ord : List Nat)
    (choice : Nat → Nat) (wq temp : Int)
    (hv : ValidDraws m.env.month wq temp) :
    (modelStep m ord choice wq temp).env.month = monthSucc m.env.month ∧
    wqLo m.env.month ≤ (modelStep m ord choice wq temp).env.water_quality ∧
    (modelStep m ord choice wq temp).env.water_quality < wqHi m.env.month ∧
    tempLo m.env.month ≤ (modelStep m ord choice wq temp).env.temperature ∧
    (modelStep m ord choice wq temp).env.temperature < tempHi m.env.month ∧
    (modelStep m ord choice wq temp).env.temperature_description =
      seasonDescription m.env.month := by
  rw [modelStep_env]
  obtain ⟨h1, h2, h3, h4⟩ := hv
  exact ⟨rfl, h1, h2, h3, h4, rfl⟩

/-- A 3-by-3 simulation freshly constructed in month 11 (autumn), with the
seed at (1, 1) and initial draws 80 and 20 from the autumn ranges. -/
def mNov : AmoebaDivisionModel :=
  { width := 3, height := 3
    env := envInit 11 80 20
    agents := [{ unique_id := 1, state := "intact", dividing_next_step := false,
                 pos := (1, 1), new_position := (0, 0), new_amoeba_id := 0 }]
    cells := [((1, 1), 1)]
    current_id := 1, steps := 0, data_collector := [] }

/-- The state of `mNov` after one tick whose environment draws are 75 and
20, drawn from the ranges of month 11. -/
def mDec : AmoebaDivisionModel := modelStep mNov [1] (fun _ => 0) 75 20

/-- Counterexample to C6 as stated: a reachable state one tick after
construction in month 11 stores month 12 (winter) together with a water
quality of 75, which is not in the winter range [0, 50) the claim assigns to
the stored month — because the tick redraws conditions from the old month
before incrementing, not after. -/
theorem env_advance_order_counterexample :
    Reachable mDec ∧ mDec.env.month = 12 ∧ ¬ (mDec.env.water_quality < 50) :=
  ⟨Reachable.step mNov [1] (fun _ => 0) 75 20
      (Reachable.init 3 3 11 80 20 1 1 mNov (by decide) (by decide) (by decide))
      (by decide) (by decide),
    by decide, by decide⟩

/-- Witness for the amended C6, at the concrete reachable state `mNov` with
the tick that produces `mDec`. -/
theorem env_advance_order_amended_witness :
    mDec.env.month = monthSucc mNov.env.month ∧
    wqLo mNov.env.month ≤ mDec.env.water_quality ∧
    mDec.env.water_quality < wqHi mNov.env.month ∧
    tempLo mNov.env.month ≤ mDec.env.temperature ∧
    mDec.env.temperature < tempHi mNov.env.month ∧
    mDec.env.temperature_description = seasonDescription mNov.env.month :=
  env_advance_order_amended mNov [1] (fun _ => 0) 75 20 (by decide)

/-- Counterexample to C7 as stated: constructing with month 13, outside
1..12, succeeds (with draws 80 and 20 that the constructor's random calls
can produce for month 13) instead of failing with `InvalidConfig`. -/
theorem constructor_validation_counterexample :
    ValidDraws 13 80 20 ∧ (modelInit 10 10 13 80 20 2 2).isSome = true := by
  decide

/-- C7, amended: the constructor validates nothing itself.  Any month,
including values outside 1..12, is accepted (an out-of-range month simply
falls into the non-winter, non-summer season tables), and construction
fails — by the seed-position draw `np.random.randint(1, width)` raising an
uncaught `ValueError`, not by a dedicated `InvalidConfig` error — exactly
when width ≤ 1 or height ≤ 1; in that case no simulation instance is
created. -/
theorem constructor_validation_amended (width height : Nat)
    (month wq temp : Int) (sx sy : Nat) :
    (modelInit width height month wq temp sx sy).isSome ↔
      (1 < width ∧ 1 < height) := by
  unfold modelInit
  split <;> simp_all

/-- Counterexample to C8 as stated: width = 1, height = 1 and month 1 are a
valid construction per the claim (width ≥ 1, height ≥ 1, month in 1..12),
yet construction fails, because the seed draw `np.random.randint(1, 1)`
raises. -/
theorem seed_placement_counterexample :
    modelInit 1 1 1 0 0 0 0 = none := by
  decide

/-- C8, amended: construction succeeds exactly when width ≥ 2 and height ≥ 2
(any month), and then places exactly one seed organism, in state "intact",
at the drawn cell (sx, sy); the draws range uniformly over
[1, width) × [1, height), so every cell with both coordinates at least 1 —
including cells on the far borders x = width−1 and y = height−1 — is a
possible seed position, while cells in column 0 or row 0 are not. -/
theorem seed_placement_amended (width height : Nat) (month wq temp : Int)
    (sx sy : Nat) (hs : SeedDraw width height sx sy) :
    ∃ m, modelInit width height month wq temp sx sy = some m ∧
      m.agents.length = 1 ∧
      (∀ a ∈ m.agents, a.state = "intact" ∧ a.pos = (sx, sy)) ∧
      gridGet m.cells (sx, sy) = some 1 := by
  obtain ⟨h1, h2, h3, h4⟩ := hs
  have hwh : 1 < width ∧ 1 < height := by omega
  unfold modelInit
  rw [if_pos hwh]
  refine ⟨_, rfl, rfl, ?_, ?_⟩
  · intro a ha
    simp only [List.mem_singleton] at ha
    subst ha
    exact ⟨rfl, rfl⟩
  · simp [gridGet]

/-- Witness for the amended C8: a 3-by-3 construction whose seed draw is
(2, 2) — a far-border cell the original claim ruled out. -/
theorem seed_placement_amended_witness :
    ∃ m, modelInit 3 3 1 0 0 2 2 = some m ∧
      m.agents.length = 1 ∧
      (∀ a ∈ m.agents, a.state = "intact" ∧ a.pos = (2, 2)) ∧
      gridGet m.cells (2, 2) = some 1 :=
  seed_placement_amended 3 3 1 0 0 2 2 (by decide)

theorem findAgent_spec {l : List Amoeba} {aid : Nat} {a : Amoeba}
    (h : findAgent l aid = some a) : a ∈ l ∧ a.unique_id = aid := by
  refine ⟨List.mem_of_find?_eq_some h, ?_⟩
  have := List.find?_some h
  exact of_decide_eq_true this

theorem mem_setAgent {l : List Amoeba} {aid : Nat} {newA b : Amoeba}
    (hb : b ∈ setAgent l aid newA) :
    ∃ a ∈ l, b = if a.unique_id = aid then newA else a := by
  unfold setAgent at hb
  obtain ⟨a, ha, hab⟩ := List.mem_map.mp hb
  exact ⟨a, ha, hab.symm⟩

theorem setAgent_mem {l : List Amoeba} {aid : Nat} {newA a : Amoeba}
    (ha : a ∈ l) :
    (if a.unique_id = aid then newA else a) ∈ setAgent l aid newA :=
  List.mem_map.mpr ⟨a, ha, rfl⟩

theorem setAgent_ids {l : List Amoeba} {aid : Nat} {newA : Amoeba}
    (h : newA.unique_id = aid) :
    agentIds (setAgent l aid newA) = agentIds l := by
  unfold agentIds setAgent
  rw [List.map_map]
  refine List.map_congr_left ?_
  intro a _
  by_cases hc : a.unique_id = aid
  · simp [hc, h]
  · simp [hc]

theorem setAgent_length (l : List Amoeba) (aid : Nat) (newA : Amoeba) :
    (setAgent l aid newA).length = l.length := by
  unfold setAgent
  exact List.length_map l _

theorem findAgent_setAgent {l : List Amoeba} {aid : Nat} {newA a : Amoeba}
    (h : findAgent l aid = some a) (hid : newA.unique_id = aid) :
    findAgent (setAgent l aid newA) aid = some newA := by
  induction l with
  | nil => simp [findAgent] at h
  | cons b t ih =>
      unfold findAgent at h ⊢
      unfold setAgent
      by_cases hb : b.unique_id = aid
      · simp only [List.map_cons, if_pos hb]
        exact List.find?_cons_of_pos _ (by simp [hid])
      · rw [List.find?_cons_of_neg _ (by simp [hb])] at h
        simp only [List.map_cons, if_neg hb]
        rw [List.find?_cons_of_neg _ (by simp [hb])]
        exact ih h

theorem findAgent_append_left {l1 l2 : List Amoeba} {aid : Nat} {a : Amoeba}
    (h : findAgent l1 aid = some a) :
    findAgent (l1 ++ l2) aid = some a := by
  unfold findAgent at h ⊢
  rw [List.find?_append, h]
  rfl

theorem findAgent_append_right {l1 l2 : List Amoeba} {aid : Nat}
    (h : ∀ b ∈ l1, b.unique_id ≠ aid) :
    findAgent (l1 ++ l2) aid = findAgent l2 aid := by
  unfold findAgent
  rw [List.find?_append]
  have : l1.find? (fun b => decide (b.unique_id = aid)) = none :=
    List.find?_eq_none.mpr (fun b hb => by simp [h b hb])
  rw [this]
  rfl

theorem gridGet_mem {cells : List (Pos × Nat)} {p : Pos} {i : Nat}
    (h : gridGet cells p = some i) : (p, i) ∈ cells := by
  unfold gridGet at h
  cases hf : cells.find? (fun pc => decide (pc.1 = p)) with
  | none => rw [hf] at h; simp at h
  | some pc =>
      rw [hf] at h
      simp only [Option.map_some'] at h
      have h0 := List.find?_some hf
      have h1 : pc.1 = p := of_decide_eq_true h0
      have h2 := List.mem_of_find?_eq_some hf
      have : pc = (p, i) := by
        obtain ⟨x, y⟩ := pc
        have hy : y = i := Option.some.inj h
        simp only at h1
        rw [h1, hy]
      rw [← this]
      exact h2

theorem gridGet_none_iff {cells : List (Pos × Nat)} {p : Pos} :
    gridGet cells p = none ↔ ∀ pc ∈ cells, pc.1 ≠ p := by
  unfold gridGet
  constructor
  · intro h pc hpc
    cases hf : cells.find? (fun pc => decide (pc.1 = p)) with
    | none =>
        have := List.find?_eq_none.mp hf pc hpc
        simpa using this
    | some q => rw [hf] at h; simp at h
  · intro h
    have : cells.find? (fun pc => decide (pc.1 = p)) = none :=
      List.find?_eq_none.mpr (fun pc hpc => by simp [h pc hpc])
    rw [this]
    rfl

theorem gridGet_append_left {c1 c2 : List (Pos × Nat)} {p : Pos} {i : Nat}
    (h : gridGet c1 p = some i) : gridGet (c1 ++ c2) p = some i := by
  unfold gridGet at h ⊢
  rw [List.find?_append]
  cases hf : c1.find? (fun pc => decide (pc.1 = p)) with
  | none => rw [hf] at h; simp at h
  | some pc => rw [hf] at h; simpa using h

theorem gridGet_append_none {c1 c2 : List (Pos × Nat)} {p : Pos}
    (h : gridGet c1 p = none) : gridGet (c1 ++ c2) p = gridGet c2 p := by
  unfold gridGet at h ⊢
  rw [List.find?_append]
  cases hf : c1.find? (fun pc => decide (pc.1 = p)) with
  | none => rfl
  | some pc => rw [hf] at h; simp at h

theorem gridGet_singleton (p : Pos) (i : Nat) :
    gridGet [(p, i)] p = some i := by
  simp [gridGet]

/-- The reachable-state invariant: the registry carries pairwise distinct
identifiers all bounded by the allocator counter, pending child identifiers
are fresh and mutually distinct, grid cells are occupied at most once,
registry and grid point at each other consistently, and every state string
is one of the six the source assigns. -/
structure SimInv (m : AmoebaDivisionModel) : Prop where
  cellsNodup : (m.cells.map Prod.fst).Nodup
  idsNodup : (agentIds m.agents).Nodup
  agentCell : ∀ a ∈ m.agents, gridGet m.cells a.pos = some a.unique_id
  cellAgent : ∀ pc ∈ m.cells, ∃ a ∈ m.agents, a.unique_id = pc.2 ∧ a.pos = pc.1
  statesValid : ∀ a ∈ m.agents, a.state ∈ stateNames
  idLe : ∀ a ∈ m.agents, a.unique_id ≤ m.current_id
  pendLe : ∀ a ∈ m.agents, a.dividing_next_step = true → a.new_amoeba_id ≤ m.current_id
  pendFresh : ∀ a ∈ m.agents, a.dividing_next_step = true →
      ∀ b ∈ m.agents, b.unique_id ≠ a.new_amoeba_id
  pendDistinct : ∀ a ∈ m.agents, ∀ b ∈ m.agents,
      a.dividing_next_step = true → b.dividing_next_step = true →
      a.new_amoeba_id = b.new_amoeba_id → a.unique_id = b.unique_id

theorem mem_setAgent_cases {l : List Amoeba} {aid : Nat} {newA b : Amoeba}
    (hb : b ∈ setAgent l aid newA) :
    b = newA ∨ (b ∈ l ∧ b.unique_id ≠ aid) := by
  obtain ⟨c, hc, hbc⟩ := mem_setAgent hb
  by_cases hcid : c.unique_id = aid
  · left
    rw [hbc, if_pos hcid]
  · right
    rw [hbc, if_neg hcid]
    exact ⟨hc, hcid⟩

theorem setAgent_mem_self {l : List Amoeba} {aid : Nat} {newA a : Amoeba}
    (ha : a ∈ l) (haid : a.unique_id = aid) : newA ∈ setAgent l aid newA := by
  have := @setAgent_mem l aid newA a ha
  rwa [if_pos haid] at this

theorem setAgent_mem_other {l : List Amoeba} {aid : Nat} {newA b : Amoeba}
    (hb : b ∈ l) (hbid : b.unique_id ≠ aid) : b ∈ setAgent l aid newA := by
  have := @setAgent_mem l aid newA b hb
  rwa [if_neg hbid] at this

theorem ids_inj {l : List Amoeba} (hnd : (agentIds l).Nodup) {a b : Amoeba}
    (ha : a ∈ l) (hb : b ∈ l) (hab : a.unique_id = b.unique_id) : a = b :=
  List.inj_on_of_nodup_map hnd ha hb hab

theorem stepState_mem {env : Environment} {a : Amoeba}
    (h : a.state ∈ stateNames) : stepState env a ∈ stateNames := by
  unfold stepState
  split
  · decide
  · split
    · decide
    · exact h

/-- Preservation of the invariant by any activation branch that finishes by
replacing the activated agent with an updated record keeping its identifier
and position, a legal state string, and pending-division data that is either
cleared or inherited unchanged. -/
theorem simInv_setAgent {m : AmoebaDivisionModel} (hm : SimInv m)
    {aid : Nat} {a newA : Amoeba}
    (hfind : findAgent m.agents aid = some a)
    (hid : newA.unique_id = a.unique_id)
    (hpos : newA.pos = a.pos)
    (hstate : newA.state ∈ stateNames)
    (hpend : newA.dividing_next_step = true →
      a.dividing_next_step = true ∧ newA.new_amoeba_id = a.new_amoeba_id) :
    SimInv { m with agents := setAgent m.agents aid newA } := by
  obtain ⟨ha, haid⟩ := findAgent_spec hfind
  have hidaid : newA.unique_id = aid := by rw [hid, haid]
  refine ⟨hm.cellsNodup, ?_, ?_, ?_, ?_, ?_, ?_, ?_, ?_⟩
  · show (agentIds (setAgent m.agents aid newA)).Nodup
    rw [setAgent_ids hidaid]
    exact hm.idsNodup
  · intro b hb
    rcases mem_setAgent_cases hb with hb' | ⟨hb', _⟩
    · subst hb'
      rw [hpos, hid]
      exact hm.agentCell a ha
    · exact hm.agentCell b hb'
  · intro pc hpc
    obtain ⟨c, hc, hcid, hcpos⟩ := hm.cellAgent pc hpc
    by_cases hcaid : c.unique_id = aid
    · have hca : c = a := ids_inj hm.idsNodup hc ha (by rw [hcaid, haid])
      refine ⟨newA, setAgent_mem_self ha haid, ?_, ?_⟩
      · rw [hidaid, ← hcaid, hcid]
      · rw [hpos, ← hca, hcpos]
    · exact ⟨c, setAgent_mem_other hc hcaid, hcid, hcpos⟩
  · intro b hb
    rcases mem_setAgent_cases hb with hb' | ⟨hb', _⟩
    · subst hb'; exact hstate
    · exact hm.statesValid b hb'
  · intro b hb
    rcases mem_setAgent_cases hb with hb' | ⟨hb', _⟩
    · subst hb'
      rw [hid]
      exact hm.idLe a ha
    · exact hm.idLe b hb'
  · intro b hb hbp
    rcases mem_setAgent_cases hb with hb' | ⟨hb', _⟩
    · subst hb'
      obtain ⟨hap, hnam⟩ := hpend hbp
      rw [hnam]
      exact hm.pendLe a ha hap
    · exact hm.pendLe b hb' hbp
  · intro b hb hbp c hc
    rcases mem_setAgent_cases hb with hb' | ⟨hb', hbne⟩
    · subst hb'
      obtain ⟨hap, hnam⟩ := hpend hbp
      rw [hnam]
      rcases mem_setAgent_cases hc with hc' | ⟨hc', _⟩
      · subst hc'
        rw [hidaid, ← haid]
        exact hm.pendFresh a ha hap a ha
      · exact hm.pendFresh a ha hap c hc'
    · rcases mem_setAgent_cases hc with hc' | ⟨hc', _⟩
      · subst hc'
        rw [hidaid, ← haid]
        exact hm.pendFresh b hb' hbp a ha
      · exact hm.pendFresh b hb' hbp c hc'
  · intro b hb c hc hbp hcp hnam
    rcases mem_setAgent_cases hb with hb' | ⟨hb', hbne⟩ <;>
      rcases mem_setAgent_cases hc with hc' | ⟨hc', hcne⟩
    · subst hb'; subst hc'; rfl
    · subst hb'
      obtain ⟨hap, hban⟩ := hpend hbp
      rw [hban] at hnam
      have hac := hm.pendDistinct a ha c hc' hap hcp hnam
      have hc2 : c.unique_id = aid := by rw [← hac, haid]
      exact absurd hc2 hcne
    · subst hc'
      obtain ⟨hap, hcan⟩ := hpend hcp
      rw [hcan] at hnam
      have hba := hm.pendDistinct b hb' a ha hbp hap hnam
      have hb2 : b.unique_id = aid := by rw [hba, haid]
      exact absurd hb2 hbne
    · exact hm.pendDistinct b hb' c hc' hbp hcp hnam

theorem agentIds_append (l1 l2 : List Amoeba) :
    agentIds (l1 ++ l2) = agentIds l1 ++ agentIds l2 :=
  List.map_append _ l1 l2

/-- Preservation of the invariant by phase 1 of the division protocol: the
activated agent is replaced by a record keeping its identifier and position,
in a legal state, whose pending-division data records the freshly allocated
child identifier, while the allocator counter increments. -/
theorem simInv_startDivide {m : AmoebaDivisionModel} (hm : SimInv m)
    {aid : Nat} {a newA : Amoeba}
    (hfind : findAgent m.agents aid = some a)
    (hid : newA.unique_id = a.unique_id)
    (hpos : newA.pos = a.pos)
    (hstate : newA.state ∈ stateNames)
    (hnam : newA.new_amoeba_id = m.current_id + 1) :
    SimInv { m with agents := setAgent m.agents aid newA,
                    current_id := m.current_id + 1 } := by
  obtain ⟨ha, haid⟩ := findAgent_spec hfind
  have hidaid : newA.unique_id = aid := by rw [hid, haid]
  refine ⟨hm.cellsNodup, ?_, ?_, ?_, ?_, ?_, ?_, ?_, ?_⟩
  · show (agentIds (setAgent m.agents aid newA)).Nodup
    rw [setAgent_ids hidaid]
    exact hm.idsNodup
  · intro b hb
    rcases mem_setAgent_cases hb with hb' | ⟨hb', _⟩
    · subst hb'
      rw [hpos, hid]
      exact hm.agentCell a ha
    · exact hm.agentCell b hb'
  · intro pc hpc
    obtain ⟨c, hc, hcid, hcpos⟩ := hm.cellAgent pc hpc
    by_cases hcaid : c.unique_id = aid
    · have hca : c = a := ids_inj hm.idsNodup hc ha (by rw [hcaid, haid])
      refine ⟨newA, setAgent_mem_self ha haid, ?_, ?_⟩
      · rw [hidaid, ← hcaid, hcid]
      · rw [hpos, ← hca, hcpos]
    · exact ⟨c, setAgent_mem_other hc hcaid, hcid, hcpos⟩
  · intro b hb
    rcases mem_setAgent_cases hb with hb' | ⟨hb', _⟩
    · subst hb'; exact hstate
    · exact hm.statesValid b hb'
  · intro b hb
    rcases mem_setAgent_cases hb with hb' | ⟨hb', _⟩
    · subst hb'
      rw [hid]
      exact Nat.le_succ_of_le (hm.idLe a ha)
    · exact Nat.le_succ_of_le (hm.idLe b hb')
  · intro b hb hbp
    rcases mem_setAgent_cases hb with hb' | ⟨hb', _⟩
    · subst hb'
      rw [hnam]
    · exact Nat.le_succ_of_le (hm.pendLe b hb' hbp)
  · intro b hb hbp c hc
    rcases mem_setAgent_cases hb with hb' | ⟨hb', hbne⟩
    · subst hb'
      rw [hnam]
      rcases mem_setAgent_cases hc with hc' | ⟨hc', _⟩
      · subst hc'
        rw [hid]
        have := hm.idLe a ha
        omega
      · have := hm.idLe c hc'
        omega
    · rcases mem_setAgent_cases hc with hc' | ⟨hc', _⟩
      · subst hc'
        rw [hid]
        exact hm.pendFresh b hb' hbp a ha
      · exact hm.pendFresh b hb' hbp c hc'
  · intro b hb c hc hbp hcp hnameq
    rcases mem_setAgent_cases hb with hb' | ⟨hb', hbne⟩ <;>
      rcases mem_setAgent_cases hc with hc' | ⟨hc', hcne⟩
    · subst hb'; subst hc'; rfl
    · subst hb'
      rw [hnam] at hnameq
      have := hm.pendLe c hc' hcp
      omega
    · subst hc'
      rw [hnam] at hnameq
      have := hm.pendLe b hb' hbp
      omega
    · exact hm.pendDistinct b hb' c hc' hbp hcp hnameq

/-- Preservation of the invariant by the successful phase-2 commit: the
recorded target cell was checked empty, the child is placed there and
appended to the registry with the recorded fresh identifier, and the parent
becomes divided with its pending flag cleared. -/
theorem simInv_commit {m : AmoebaDivisionModel} (hm : SimInv m)
    {aid : Nat} {a : Amoeba}
    (hfind : findAgent m.agents aid = some a)
    (hflag : a.dividing_next_step = true)
    (hempty : cellEmpty m.cells a.new_position = true) :
    SimInv { m with
      agents := setAgent m.agents aid
          { a with state := "divided", dividing_next_step := false } ++
        [{ unique_id := a.new_amoeba_id, state := "intact",
           dividing_next_step := false, pos := a.new_position,
           new_position := (0, 0), new_amoeba_id := 0 }]
      cells := m.cells ++ [(a.new_position, a.new_amoeba_id)] } := by
  obtain ⟨ha, haid⟩ := findAgent_spec hfind
  have hnone : gridGet m.cells a.new_position = none := by
    unfold cellEmpty at hempty
    exact Option.isNone_iff_eq_none.mp hempty
  have hfreshcell : ∀ pc ∈ m.cells, pc.1 ≠ a.new_position :=
    gridGet_none_iff.mp hnone
  have hfreshid : ∀ b ∈ m.agents, b.unique_id ≠ a.new_amoeba_id :=
    hm.pendFresh a ha hflag
  have hpAid : ({ a with state := "divided", dividing_next_step := false } :
      Amoeba).unique_id = aid := haid
  refine ⟨?_, ?_, ?_, ?_, ?_, ?_, ?_, ?_, ?_⟩
  · show ((m.cells ++ [(a.new_position, a.new_amoeba_id)]).map Prod.fst).Nodup
    rw [List.map_append, List.nodup_append]
    refine ⟨hm.cellsNodup, by simp, ?_⟩
    intro x hx1 hx2
    obtain ⟨pc, hpc, hpcx⟩ := List.mem_map.mp hx1
    simp only [List.map_cons, List.map_nil, List.mem_singleton] at hx2
    rw [hx2] at hpcx
    exact hfreshcell pc hpc hpcx
  · show (agentIds (setAgent m.agents aid _ ++ [_])).Nodup
    rw [agentIds_append, setAgent_ids hpAid]
    rw [List.nodup_append]
    refine ⟨hm.idsNodup, by simp [agentIds], ?_⟩
    intro x hx1 hx2
    obtain ⟨b, hb, hbx⟩ := List.mem_map.mp hx1
    simp only [agentIds, List.map_cons, List.map_nil, List.mem_singleton] at hx2
    rw [hx2] at hbx
    exact hfreshid b hb hbx
  · intro b hb
    rcases List.mem_append.mp hb with hb1 | hb2
    · rcases mem_setAgent_cases hb1 with hb' | ⟨hb', _⟩
      · subst hb'
        exact gridGet_append_left (hm.agentCell a ha)
      · exact gridGet_append_left (hm.agentCell b hb')
    · simp only [List.mem_singleton] at hb2
      subst hb2
      show gridGet (m.cells ++ [(a.new_position, a.new_amoeba_id)])
          a.new_position = some a.new_amoeba_id
      rw [gridGet_append_none hnone]
      exact gridGet_singleton _ _
  · intro pc hpc
    rcases List.mem_append.mp hpc with hpc1 | hpc2
    · obtain ⟨c, hc, hcid, hcpos⟩ := hm.cellAgent pc hpc1
      by_cases hcaid : c.unique_id = aid
      · have hca : c = a := ids_inj hm.idsNodup hc ha (by rw [hcaid, haid])
        refine ⟨{ a with state := "divided", dividing_next_step := false },
          List.mem_append_left _ (setAgent_mem_self ha haid), ?_, ?_⟩
        · show a.unique_id = pc.2
          rw [← hca, hcid]
        · show a.pos = pc.1
          rw [← hca, hcpos]
      · exact ⟨c, List.mem_append_left _ (setAgent_mem_other hc hcaid), hcid, hcpos⟩
    · simp only [List.mem_singleton] at hpc2
      subst hpc2
      exact ⟨_, List.mem_append_right _ (List.mem_singleton.mpr rfl), rfl, rfl⟩
  · intro b hb
    rcases List.mem_append.mp hb with hb1 | hb2
    · rcases mem_setAgent_cases hb1 with hb' | ⟨hb', _⟩
      · subst hb'
        show ("divided" : String) ∈ stateNames
        decide
      · exact hm.statesValid b hb'
    · simp only [List.mem_singleton] at hb2
      subst hb2
      show ("intact" : String) ∈ stateNames
      decide
  · intro b hb
    rcases List.mem_append.mp hb with hb1 | hb2
    · rcases mem_setAgent_cases hb1 with hb' | ⟨hb', _⟩
      · subst hb'
        exact hm.idLe a ha
      · exact hm.idLe b hb'
    · simp only [List.mem_singleton] at hb2
      subst hb2
      exact hm.pendLe a ha hflag
  · intro b hb hbp
    rcases List.mem_append.mp hb with hb1 | hb2
    · rcases mem_setAgent_cases hb1 with hb' | ⟨hb', _⟩
      · rw [hb'] at hbp
        simp at hbp
      · exact hm.pendLe b hb' hbp
    · simp only [List.mem_singleton] at hb2
      rw [hb2] at hbp
      simp at hbp
  · intro b hb hbp c hc
    rcases List.mem_append.mp hb with hb1 | hb2
    · rcases mem_setAgent_cases hb1 with hb' | ⟨hb', hbne⟩
      · rw [hb'] at hbp
        simp at hbp
      · rcases List.mem_append.mp hc with hc1 | hc2
        · rcases mem_setAgent_cases hc1 with hc' | ⟨hc', _⟩
          · subst hc'
            show a.unique_id ≠ b.new_amoeba_id
            exact hm.pendFresh b hb' hbp a ha
          · exact hm.pendFresh b hb' hbp c hc'
        · simp only [List.mem_singleton] at hc2
          subst hc2
          show a.new_amoeba_id ≠ b.new_amoeba_id
          intro heq
          have := hm.pendDistinct a ha b hb' hflag hbp heq
          rw [haid] at this
          exact hbne this.symm
    · simp only [List.mem_singleton] at hb2
      rw [hb2] at hbp
      simp at hbp
  · intro b hb c hc hbp hcp hnameq
    rcases List.mem_append.mp hb with hb1 | hb2
    · rcases mem_setAgent_cases hb1 with hb' | ⟨hb', hbne⟩
      · rw [hb'] at hbp
        simp at hbp
      · rcases List.mem_append.mp hc with hc1 | hc2
        · rcases mem_setAgent_cases hc1 with hc' | ⟨hc', hcne⟩
          · rw [hc'] at hcp
            simp at hcp
          · exact hm.pendDistinct b hb' c hc' hbp hcp hnameq
        · simp only [List.mem_singleton] at hc2
          rw [hc2] at hcp
          simp at hcp
    · simp only [List.mem_singleton] at hb2
      rw [hb2] at hbp
      simp at hbp

/-- Preservation of the invariant by `divide_if_possible`, entered with the
activated agent's state already rewritten to `s` by lines 45-48. -/
theorem simInv_divide {m : AmoebaDivisionModel} (hm : SimInv m)
    {aid : Nat} {a : Amoeba} (s : String) (choice : Nat)
    (hfind : findAgent m.agents aid = some a)
    (hs : s ∈ stateNames) :
    SimInv (divide_if_possible m { a with state := s } choice) := by
  obtain ⟨ha, haid⟩ := findAgent_spec hfind
  rw [← haid] at hfind
  unfold divide_if_possible
  dsimp only
  by_cases hflag : a.dividing_next_step = true
  · rw [if_pos hflag]
    by_cases hempty : cellEmpty m.cells a.new_position = true
    · rw [if_pos hempty]
      exact simInv_commit hm hfind hflag hempty
    · rw [if_neg hempty]
      exact simInv_setAgent hm hfind rfl rfl
        (show ("stressed" : String) ∈ stateNames by decide)
        (fun h => Bool.noConfusion h)
  · rw [if_neg hflag]
    by_cases hdiv : is_div_condition m.env = true
    · rw [if_pos hdiv]
      by_cases hemp :
          (List.filter (fun p => cellEmpty m.cells p)
            (get_neighborhood m.width m.height a.pos)).isEmpty = true
      · rw [if_pos hemp]
        exact simInv_setAgent hm hfind rfl rfl
          (show ("stressed" : String) ∈ stateNames by decide)
          (fun h => ⟨h, rfl⟩)
      · rw [if_neg hemp]
        exact simInv_startDivide hm hfind rfl rfl
          (show ("dividing" : String) ∈ stateNames by decide) rfl
    · rw [if_neg hdiv]
      exact simInv_setAgent hm hfind rfl rfl hs (fun h => ⟨h, rfl⟩)

/-- Preservation of the invariant by one agent activation. -/
theorem simInv_agentStep (m : AmoebaDivisionModel) (aid choice : Nat)
    (hm : SimInv m) : SimInv (agentStep m aid choice) := by
  cases hfind : findAgent m.agents aid with
  | none =>
      have heq : agentStep m aid choice = m := by
        unfold agentStep
        rw [hfind]
      rw [heq]
      exact hm
  | some a =>
      obtain ⟨ha, haid⟩ := findAgent_spec hfind
      have hstate1 : stepState m.env a ∈ stateNames :=
        stepState_mem (hm.statesValid a ha)
      have hfind2 : findAgent m.agents a.unique_id = some a := by
        rw [haid]
        exact hfind
      by_cases hgate : (decide (stepState m.env a = "excysted") ||
          is_div_condition m.env || a.dividing_next_step) = true
      · have heq : agentStep m aid choice =
            divide_if_possible m { a with state := stepState m.env a } choice := by
          unfold agentStep
          rw [hfind]
          dsimp only
          rw [if_pos hgate]
        rw [heq]
        exact simInv_divide hm (stepState m.env a) choice hfind hstate1
      · have heq : agentStep m aid choice =
            { m with
              agents := setAgent m.agents a.unique_id
                { a with state := stepState m.env a } } := by
          unfold agentStep
          rw [hfind]
          dsimp only
          rw [if_neg hgate]
        rw [heq]
        exact simInv_setAgent hm hfind2 rfl rfl hstate1 (fun h => ⟨h, rfl⟩)

/-- Preservation of the invariant by a whole activation pass. -/
theorem simInv_activateAll (ord : List Nat) (m : AmoebaDivisionModel)
    (choice : Nat → Nat) (hm : SimInv m) :
    SimInv (activateAll m ord choice) := by
  induction ord generalizing m with
  | nil => exact hm
  | cons i t ih => exact ih (agentStep m i (choice i)) (simInv_agentStep m i (choice i) hm)

/-- Preservation of the invariant by a full tick. -/
theorem simInv_modelStep (m : AmoebaDivisionModel) (ord : List Nat)
    (choice : Nat → Nat) (wq temp : Int) (hm : SimInv m) :
    SimInv (modelStep m ord choice wq temp) := by
  have h := simInv_activateAll ord m choice hm
  exact ⟨h.cellsNodup, h.idsNodup, h.agentCell, h.cellAgent, h.statesValid,
    h.idLe, h.pendLe, h.pendFresh, h.pendDistinct⟩

/-- Every reachable state satisfies the invariant. -/
theorem reachable_simInv {m : AmoebaDivisionModel} (h : Reachable m) :
    SimInv m := by
  induction h with
  | init width height month wq0 temp0 sx sy m hdraw hseed hinit =>
      unfold modelInit at hinit
      split at hinit
      · injection hinit with hm
        subst hm
        refine ⟨by simp, by simp [agentIds], ?_, ?_, ?_, ?_, ?_, ?_, ?_⟩
        · intro a ha
          simp only [List.mem_singleton] at ha
          subst ha
          exact gridGet_singleton _ _
        · intro pc hpc
          simp only [List.mem_singleton] at hpc
          subst hpc
          exact ⟨_, List.mem_singleton.mpr rfl, rfl, rfl⟩
        · intro a ha
          simp only [List.mem_singleton] at ha
          subst ha
          show ("intact" : String) ∈ stateNames
          decide
        · intro a ha
          simp only [List.mem_singleton] at ha
          subst ha
          exact Nat.le_refl 1
        · intro a ha hap
          simp only [List.mem_singleton] at ha
          rw [ha] at hap
          simp at hap
        · intro a ha hap
          simp only [List.mem_singleton] at ha
          rw [ha] at hap
          simp at hap
        · intro a ha b hb hap
          simp only [List.mem_singleton] at ha
          rw [ha] at hap
          simp at hap
      · exact absurd hinit (by simp)
  | step m ord choice wq temp hm hord hdraw ih =>
      exact simInv_modelStep m ord choice wq temp ih

/-- C1: Single-occupancy invariant.  In every reachable simulation state
(after construction and after any number of ticks) every occupied grid cell
is occupied once and held by exactly one registered organism, and every
registered organism occupies exactly one cell; this is maintained in
particular because a child is placed only after its recorded target cell is
checked empty in the same activation (`divide_if_possible`, lines 58-66). -/
theorem occupancy_invariant (m : AmoebaDivisionModel) (h : Reachable m) :
    (m.cells.map Prod.fst).Nodup ∧
    (∀ pc ∈ m.cells, ∃! a, a ∈ m.agents ∧ a.unique_id = pc.2 ∧ a.pos = pc.1) ∧
    (∀ a ∈ m.agents, ∃! p, (p, a.unique_id) ∈ m.cells) := by
  have hi := reachable_simInv h
  refine ⟨hi.cellsNodup, ?_, ?_⟩
  · intro pc hpc
    obtain ⟨a, ha, haid, hapos⟩ := hi.cellAgent pc hpc
    refine ⟨a, ⟨ha, haid, hapos⟩, ?_⟩
    rintro b ⟨hb, hbid, hbpos⟩
    exact ids_inj hi.idsNodup hb ha (by rw [hbid, haid])
  · intro a ha
    refine ⟨a.pos, gridGet_mem (hi.agentCell a ha), ?_⟩
    intro q hq
    obtain ⟨c, hc, hcid, hcpos⟩ := hi.cellAgent (q, a.unique_id) hq
    have hca : c = a := ids_inj hi.idsNodup hc ha hcid
    rw [← hca]
    exact hcpos.symm

/-- Witness for C1: the reachable state one tick after a month-11
construction on a 3-by-3 grid. -/
theorem occupancy_invariant_witness :
    (mDec.cells.map Prod.fst).Nodup ∧
    (∀ pc ∈ mDec.cells, ∃! a, a ∈ mDec.agents ∧ a.unique_id = pc.2 ∧ a.pos = pc.1) ∧
    (∀ a ∈ mDec.agents, ∃! p, (p, a.unique_id) ∈ mDec.cells) :=
  occupancy_invariant mDec
    (Reachable.step mNov [1] (fun _ => 0) 75 20
      (Reachable.init 3 3 11 80 20 1 1 mNov (by decide) (by decide) (by decide))
      (by decide) (by decide))

/-- Read one named field out of a metrics record, as a consumer of the
per-step dict would. -/
def recordField (r : List (String × Int)) (s : String) : Int :=
  ((r.find? (fun kv => decide (kv.1 = s))).map (fun kv => kv.2)).getD 0

theorem recordField_intact (m : AmoebaDivisionModel) :
    recordField (collect_data m) "intact" = (countState m.agents "intact" : Int) := rfl

theorem recordField_dividing (m : AmoebaDivisionModel) :
    recordField (collect_data m) "dividing" = (countState m.agents "dividing" : Int) := rfl

theorem recordField_divided (m : AmoebaDivisionModel) :
    recordField (collect_data m) "divided" = (countState m.agents "divided" : Int) := rfl

theorem recordField_encysted (m : AmoebaDivisionModel) :
    recordField (collect_data m) "encysted" = (countState m.agents "encysted" : Int) := rfl

theorem recordField_excysted (m : AmoebaDivisionModel) :
    recordField (collect_data m) "excysted" = (countState m.agents "excysted" : Int) := rfl

theorem recordField_stressed (m : AmoebaDivisionModel) :
    recordField (collect_data m) "stressed" = (countState m.agents "stressed" : Int) := rfl

theorem countState_sum (l : List Amoeba) (h : ∀ a ∈ l, a.state ∈ stateNames) :
    countState l "intact" + countState l "dividing" + countState l "divided" +
      countState l "encysted" + countState l "excysted" + countState l "stressed" =
      l.length := by
  induction l with
  | nil => rfl
  | cons a t ih =>
      have hmem := h a (List.mem_cons_self a t)
      have ht : ∀ b ∈ t, b.state ∈ stateNames :=
        fun b hb => h b (List.mem_cons_of_mem a hb)
      have hs := ih ht
      unfold countState at hs ⊢
      simp only [stateNames, List.mem_cons, List.not_mem_nil, or_false] at hmem
      rcases hmem with h1 | h1 | h1 | h1 | h1 | h1 <;>
        simp [List.filter_cons, h1] <;> omega

theorem modelStep_agents (m : AmoebaDivisionModel) (ord : List Nat)
    (choice : Nat → Nat) (wq temp : Int) :
    (modelStep m ord choice wq temp).agents = (activateAll m ord choice).agents := rfl

theorem modelStep_getLast (m : AmoebaDivisionModel) (ord : List Nat)
    (choice : Nat → Nat) (wq temp : Int) :
    (modelStep m ord choice wq temp).data_collector.getLast? =
      some (collect_data { scheduleStep m ord choice with
        env := increment_month
          (update_conditions (scheduleStep m ord choice).env wq temp) }) :=
  List.getLast?_concat _

/-- C5: Metrics completeness.  After every tick from a reachable state, every
registered organism's state is one of the six state strings, and in the
metrics record appended by that tick the six per-state counts sum to the
total number of organisms registered with the scheduler at that tick. -/
theorem metrics_completeness (m : AmoebaDivisionModel) (ord : List Nat)
    (choice : Nat → Nat) (wq temp : Int) (h : Reachable m) :
    (∀ a ∈ (modelStep m ord choice wq temp).agents, a.state ∈ stateNames) ∧
    ∃ r, (modelStep m ord choice wq temp).data_collector.getLast? = some r ∧
      recordField r "intact" + recordField r "dividing" + recordField r "divided" +
        recordField r "encysted" + recordField r "excysted" + recordField r "stressed" =
        ((modelStep m ord choice wq temp).agents.length : Int) := by
  have hi := simInv_modelStep m ord choice wq temp (reachable_simInv h)
  refine ⟨hi.statesValid,
    collect_data { scheduleStep m ord choice with
      env := increment_month
        (update_conditions (scheduleStep m ord choice).env wq temp) },
    modelStep_getLast m ord choice wq temp, ?_⟩
  show (countState (activateAll m ord choice).agents "intact" : Int) +
      (countState (activateAll m ord choice).agents "dividing" : Int) +
      (countState (activateAll m ord choice).agents "divided" : Int) +
      (countState (activateAll m ord choice).agents "encysted" : Int) +
      (countState (activateAll m ord choice).agents "excysted" : Int) +
      (countState (activateAll m ord choice).agents "stressed" : Int) =
      ((activateAll m ord choice).agents.length : Int)
  have hsv : ∀ a ∈ (activateAll m ord choice).agents, a.state ∈ stateNames :=
    hi.statesValid
  exact_mod_cast countState_sum (activateAll m ord choice).agents hsv

/-- Witness for C5: one tick from the concrete month-11 construction. -/
theorem metrics_completeness_witness :
    (∀ a ∈ (modelStep mNov [1] (fun _ => 0) 75 20).agents, a.state ∈ stateNames) ∧
    ∃ r, (modelStep mNov [1] (fun _ => 0) 75 20).data_collector.getLast? = some r ∧
      recordField r "intact" + recordField r "dividing" + recordField r "divided" +
        recordField r "encysted" + recordField r "excysted" + recordField r "stressed" =
        ((modelStep mNov [1] (fun _ => 0) 75 20).agents.length : Int) :=
  metrics_completeness mNov [1] (fun _ => 0) 75 20
    (Reachable.init 3 3 11 80 20 1 1 mNov (by decide) (by decide) (by decide))

theorem excystment_eq_div (env : Environment) :
    is_excystment_condition env = is_div_condition env := rfl

/-- C2: Two-phase division commit.  For every organism activated while its
`dividing_next_step` flag is set (with the recorded child identifier fresh,
as every reachable state guarantees): if the recorded target cell is still
empty, the child is placed there and registered in state "intact", the
parent becomes "divided", and the registry grows by one; if the target cell
is occupied, the parent becomes "stressed" and neither the grid nor the
registry's membership or size changes.  In both outcomes the pending flag is
cleared by the end of the activation. -/
theorem division_commit (m : AmoebaDivisionModel) (aid choice : Nat) (a : Amoeba)
    (hfind : findAgent m.agents aid = some a)
    (hflag : a.dividing_next_step = true)
    (hfresh : ∀ b ∈ m.agents, b.unique_id ≠ a.new_amoeba_id) :
    (cellEmpty m.cells a.new_position = true →
      (∃ c, findAgent (agentStep m aid choice).agents a.new_amoeba_id = some c ∧
        c.state = "intact" ∧ c.dividing_next_step = false ∧ c.pos = a.new_position) ∧
      gridGet (agentStep m aid choice).cells a.new_position = some a.new_amoeba_id ∧
      (∃ p, findAgent (agentStep m aid choice).agents aid = some p ∧
        p.state = "divided" ∧ p.dividing_next_step = false) ∧
      (agentStep m aid choice).agents.length = m.agents.length + 1) ∧
    (cellEmpty m.cells a.new_position = false →
      (∃ p, findAgent (agentStep m aid choice).agents aid = some p ∧
        p.state = "stressed" ∧ p.dividing_next_step = false) ∧
      (agentStep m aid choice).cells = m.cells ∧
      agentIds (agentStep m aid choice).agents = agentIds m.agents ∧
      (agentStep m aid choice).agents.length = m.agents.length) := by
  obtain ⟨ha, haid⟩ := findAgent_spec hfind
  subst haid
  have hgate : (decide (stepState m.env a = "excysted") || is_div_condition m.env ||
      a.dividing_next_step) = true := by
    rw [hflag]
    simp
  have heq : agentStep m a.unique_id choice =
      divide_if_possible m { a with state := stepState m.env a } choice := by
    unfold agentStep
    rw [hfind]
    dsimp only
    rw [if_pos hgate]
  constructor
  · intro hempty
    have heq2 : agentStep m a.unique_id choice =
        { m with
          agents := setAgent m.agents a.unique_id
              { a with state := "divided", dividing_next_step := false } ++
            [{ unique_id := a.new_amoeba_id, state := "intact",
               dividing_next_step := false, pos := a.new_position,
               new_position := (0, 0), new_amoeba_id := 0 }]
          cells := m.cells ++ [(a.new_position, a.new_amoeba_id)] } := by
      rw [heq]
      unfold divide_if_possible
      dsimp only
      rw [if_pos hflag, if_pos hempty]
    rw [heq2]
    have hnone : gridGet m.cells a.new_position = none :=
      Option.isNone_iff_eq_none.mp hempty
    have hchild :
        ({ unique_id := a.new_amoeba_id, state := "intact",
           dividing_next_step := false, pos := a.new_position,
           new_position := (0, 0), new_amoeba_id := 0 } : Amoeba).state = "intact" :=
      rfl
    refine ⟨⟨_, ?_, hchild, rfl, rfl⟩, ?_,
      ⟨{ a with state := "divided", dividing_next_step := false }, ?_, rfl, rfl⟩, ?_⟩
    · show findAgent (setAgent m.agents a.unique_id _ ++ [_]) a.new_amoeba_id = _
      rw [findAgent_append_right]
      · unfold findAgent
        exact List.find?_cons_of_pos _ (by simp)
      · intro b hb
        rcases mem_setAgent_cases hb with hb' | ⟨hb', _⟩
        · subst hb'
          exact hfresh a ha
        · exact hfresh b hb'
    · show gridGet (m.cells ++ [(a.new_position, a.new_amoeba_id)]) a.new_position = _
      rw [gridGet_append_none hnone]
      exact gridGet_singleton _ _
    · exact findAgent_append_left (findAgent_setAgent hfind rfl)
    · show (setAgent m.agents a.unique_id _ ++ [_]).length = m.agents.length + 1
      rw [List.length_append, setAgent_length]
      rfl
  · intro hocc
    have heq2 : agentStep m a.unique_id choice =
        { m with
          agents := setAgent m.agents a.unique_id
            { a with state := "stressed", dividing_next_step := false } } := by
      rw [heq]
      unfold divide_if_possible
      dsimp only
      rw [if_pos hflag, if_neg (by rw [hocc]; exact Bool.false_ne_true)]
    rw [heq2]
    exact ⟨⟨{ a with state := "stressed", dividing_next_step := false },
      findAgent_setAgent hfind rfl, rfl, rfl⟩, rfl,
      setAgent_ids rfl, setAgent_length _ _ _⟩

/-- A fully surrounded configuration: a 2-by-2 toroidal grid with all four
cells occupied, in a division-favourable spring environment. -/
def mFull : AmoebaDivisionModel :=
  { width := 2, height := 2
    env := ⟨4, 80, 20, "normal"⟩
    agents := [⟨1, "intact", false, (1, 1), (0, 0), 0⟩,
               ⟨2, "intact", false, (0, 0), (0, 0), 0⟩,
               ⟨3, "intact", false, (0, 1), (0, 0), 0⟩,
               ⟨4, "intact", false, (1, 0), (0, 0), 0⟩]
    cells := [((1, 1), 1), ((0, 0), 2), ((0, 1), 3), ((1, 0), 4)]
    current_id := 4, steps := 0, data_collector := [] }

/-- C3: Division under a full neighborhood.  For every organism that enters
the division gate without a pending division (its post-transition state is
"excysted" or the division condition holds), in an environment whose
temperature description is one of the three values the source ever assigns:
if every cell of its Moore neighborhood is occupied, the organism's state
after the activation is "stressed" — never "dividing" — and no pending
division is recorded. -/
theorem full_neighborhood_stressed (m : AmoebaDivisionModel) (aid choice : Nat)
    (a : Amoeba)
    (hwf : m.env.temperature_description = "sub-zero" ∨
      m.env.temperature_description = "extreme hot" ∨
      m.env.temperature_description = "normal")
    (hfind : findAgent m.agents aid = some a)
    (hflag : a.dividing_next_step = false)
    (hgate : stepState m.env a = "excysted" ∨ is_div_condition m.env = true)
    (hfull : ∀ p ∈ get_neighborhood m.width m.height a.pos,
      cellEmpty m.cells p = false) :
    ∃ p', findAgent (agentStep m aid choice).agents aid = some p' ∧
      p'.state = "stressed" ∧ p'.dividing_next_step = false := by
  obtain ⟨ha, haid⟩ := findAgent_spec hfind
  subst haid
  have hdiv : is_div_condition m.env = true := by
    rcases hgate with hs1 | hd
    · unfold stepState at hs1
      by_cases hen : is_encystment_condition m.env = true
      · rw [if_pos hen] at hs1
        exact absurd hs1 (by decide)
      · rw [if_neg hen] at hs1
        by_cases hex : (is_excystment_condition m.env &&
            decide (a.state = "encysted")) = true
        · rw [← excystment_eq_div]
          simp only [Bool.and_eq_true] at hex
          exact hex.1
        · rw [if_neg hex] at hs1
          unfold is_encystment_condition at hen
          simp only [Bool.or_eq_true, decide_eq_true_eq, not_or] at hen
          obtain ⟨hwq, hsz, hhot⟩ := hen
          have hnorm : m.env.temperature_description = "normal" := by
            rcases hwf with h | h | h
            · exact absurd h hsz
            · exact absurd h hhot
            · exact h
          unfold is_div_condition
          rw [hnorm]
          simp only [String.reduceEq, decide_True, Bool.and_true,
            decide_eq_true_eq]
          omega
    · exact hd
  have hgateB : (decide (stepState m.env a = "excysted") || is_div_condition m.env ||
      a.dividing_next_step) = true := by
    rw [hdiv]
    simp
  have hnil : (get_neighborhood m.width m.height a.pos).filter
      (fun p => cellEmpty m.cells p) = [] := by
    rw [List.filter_eq_nil_iff]
    intro p hp
    rw [hfull p hp]
    exact Bool.false_ne_true
  have heq : agentStep m a.unique_id choice =
      { m with
        agents := setAgent m.agents a.unique_id
          { a with state := "stressed" } } := by
    unfold agentStep
    rw [hfind]
    dsimp only
    rw [if_pos hgateB]
    unfold divide_if_possible
    dsimp only
    rw [if_neg (by rw [hflag]; exact Bool.false_ne_true), if_pos hdiv,
      if_pos (by rw [hnil]; rfl)]
  rw [heq]
  exact ⟨_, findAgent_setAgent hfind rfl, rfl, hflag⟩

/-- A parent one activation away from committing its division: pending flag
set, target cell (2, 2) recorded and still empty, child identifier 2
allocated. -/
def mPend : AmoebaDivisionModel :=
  { width := 3, height := 3
    env := ⟨5, 80, 20, "normal"⟩
    agents := [⟨1, "dividing", true, (1, 1), (2, 2), 2⟩]
    cells := [((1, 1), 1)]
    current_id := 2, steps := 1, data_collector := [] }

/-- The pending parent registered in `mPend`. -/
def aPend : Amoeba := ⟨1, "dividing", true, (1, 1), (2, 2), 2⟩

/-- Witness for C2, at the concrete pending-division state `mPend` (its
target cell is empty, so the first branch fires; the second branch holds
vacuously there). -/
theorem division_commit_witness :
    (cellEmpty mPend.cells aPend.new_position = true →
      (∃ c, findAgent (agentStep mPend 1 0).agents aPend.new_amoeba_id = some c ∧
        c.state = "intact" ∧ c.dividing_next_step = false ∧
        c.pos = aPend.new_position) ∧
      gridGet (agentStep mPend 1 0).cells aPend.new_position =
        some aPend.new_amoeba_id ∧
      (∃ p, findAgent (agentStep mPend 1 0).agents 1 = some p ∧
        p.state = "divided" ∧ p.dividing_next_step = false) ∧
      (agentStep mPend 1 0).agents.length = mPend.agents.length + 1) ∧
    (cellEmpty mPend.cells aPend.new_position = false →
      (∃ p, findAgent (agentStep mPend 1 0).agents 1 = some p ∧
        p.state = "stressed" ∧ p.dividing_next_step = false) ∧
      (agentStep mPend 1 0).cells = mPend.cells ∧
      agentIds (agentStep mPend 1 0).agents = agentIds mPend.agents ∧
      (agentStep mPend 1 0).agents.length = mPend.agents.length) :=
  division_commit mPend 1 0 aPend rfl rfl (by decide)

/-- The surrounded organism registered first in `mFull`. -/
def aFull : Amoeba := ⟨1, "intact", false, (1, 1), (0, 0), 0⟩

/-- Witness for C3, at the concrete fully surrounded state `mFull`. -/
theorem full_neighborhood_stressed_witness :
    ∃ p', findAgent (agentStep mFull 1 0).agents 1 = some p' ∧
      p'.state = "stressed" ∧ p'.dividing_next_step = false :=
  full_neighborhood_stressed mFull 1 0 aFull (Or.inr (Or.inr rfl)) rfl rfl
    (Or.inr (by decide)) (by decide)

/-- C4: Tick-birth ordering.  In a tick from a reachable state, run with an
activation snapshot `ord` that is a permutation of the registry taken at
tick start (as the scheduler does), an organism registered during the pass
(absent from the registry before the tick, present after) does not occur in
`ord` — the pass activates exactly the identifiers of `ord`, so it is not
activated during that tick — and it occurs in every snapshot of the next
tick, so it is first activated in tick T+1. -/
theorem tick_birth_ordering (m : AmoebaDivisionModel) (ord : List Nat)
    (choice : Nat → Nat) (wq temp : Int) (d : Nat)
    (_hreach : Reachable m)
    (hord : ord.Perm (agentIds m.agents))
    (hnew : d ∉ agentIds m.agents)
    (hreg : d ∈ agentIds (modelStep m ord choice wq temp).agents) :
    d ∉ ord ∧
      ∀ ord2 : List Nat, ord2.Perm (agentIds (modelStep m ord choice wq temp).agents) →
        d ∈ ord2 := by
  constructor
  · intro hd
    exact hnew (hord.mem_iff.mp hd)
  · intro ord2 h2
    exact h2.mem_iff.mpr hreg

/-- Witness for C4: the commit tick from `mDec` registers the child with
identifier 2, which was not in that tick's snapshot `[1]` and is in every
next-tick snapshot. -/
theorem tick_birth_ordering_witness :
    (2 : Nat) ∉ [1] ∧
      ∀ ord2 : List Nat, ord2.Perm (agentIds (modelStep mDec [1] (fun _ => 0) 10 0).agents) →
        (2 : Nat) ∈ ord2 :=
  tick_birth_ordering mDec [1] (fun _ => 0) 10 0 2
    (Reachable.step mNov [1] (fun _ => 0) 75 20
      (Reachable.init 3 3 11 80 20 1 1 mNov (by decide) (by decide) (by decide))
      (by decide) (by decide))
    (by decide) (by decide) (by decide)
